import Mathlib

set_option maxRecDepth 8000
set_option linter.unusedVariables false

namespace GetDocs

/-- Modelled from the spec: one field of a record definition, carrying its
identifier, its canonical textual type signature and its doc-comment lines
(§3 RecordDefinition: `fields` is an ordered sequence of
`(name, type_signature, doc_lines)`). The extraction front-end that produces
these from source syntax is out of scope for the engine. -/
structure FieldDef where
  name : String
  type_signature : String
  doc_lines : List String
deriving DecidableEq

/-- Modelled from the spec: a record definition of the registry (§3), a
canonical `type_name` used as resolution key plus the ordered field list. -/
structure RecordDefinition where
  type_name : String
  fields : List FieldDef
deriving DecidableEq

/-- Modelled from the spec: the registry, a mapping from `type_name` to
`RecordDefinition`, immutable during extraction (§3). Represented as the
list of definitions, looked up by `type_name`. -/
abbrev Registry := List RecordDefinition

/-- Modelled from the spec: the documentation tree node (§3 FieldDoc; the
repository's test calls it `StructDoc` with the same four components in the
same order). -/
inductive FieldDoc where
  | mk (name : String) (type_signature : String) (doc_lines : List String)
      (children : List FieldDoc)

def FieldDoc.name : FieldDoc → String
  | .mk n _ _ _ => n

def FieldDoc.type_signature : FieldDoc → String
  | .mk _ t _ _ => t

def FieldDoc.doc_lines : FieldDoc → List String
  | .mk _ _ d _ => d

def FieldDoc.children : FieldDoc → List FieldDoc
  | .mk _ _ _ c => c

/-- Lookup of a type name in the registry (first definition whose
`type_name` equals the key). -/
def lookupRecord (R : Registry) (t : String) : Option RecordDefinition :=
  R.find? (fun rd => rd.type_name == t)

/-- Remove leading and trailing whitespace characters from a character
list. -/
def trimChars (cs : List Char) : List Char :=
  ((cs.dropWhile Char.isWhitespace).reverse.dropWhile Char.isWhitespace).reverse

/-- Modelled from the spec: trimming a signature or argument of its
surrounding whitespace (§4.1). -/
def trimStr (s : String) : String :=
  String.mk (trimChars s.data)

/-- Split a character list at its first occurrence of the character `<`,
returning the part before and the part after it. -/
def splitFirstLt : List Char → Option (List Char × List Char)
  | [] => none
  | c :: rest =>
    if c = '<' then some ([], rest)
    else (splitFirstLt rest).map (fun pr => (c :: pr.1, pr.2))

/-- Split a character list at the commas that occur at angle-bracket depth
zero, tracking depth via `<` and `>`; fails on unbalanced brackets (depth
dropping below zero or not returning to zero at the end). -/
def splitArgs : List Char → Nat → List Char → Option (List (List Char))
  | [], 0, acc => some [acc.reverse]
  | [], _ + 1, _ => none
  | c :: cs, d, acc =>
    if c = ',' ∧ d = 0 then (splitArgs cs 0 []).map (fun r => acc.reverse :: r)
    else if c = '<' then splitArgs cs (d + 1) (c :: acc)
    else if c = '>' then
      match d with
      | 0 => none
      | d' + 1 => splitArgs cs d' (c :: acc)
    else splitArgs cs d (c :: acc)

/-- Modelled from the spec: the container-shape parse of the Type Signature
Analyzer (§4.1, shape 2): a signature of the shape `Outer<Arg1, Arg2, …>`
(one level of angle-bracket nesting, comma-separated argument list,
arguments trimmed of surrounding whitespace). Malformed bracket syntax
yields `none` (treated as "no match", §4.1). The analyzer's source is not
under the visible tree; only its test is. -/
def parseContainer (s : String) : Option (String × List String) :=
  match splitFirstLt s.data with
  | none => none
  | some (outerCs, post) =>
    match post.getLast? with
    | some c =>
      if c = '>' then
        match splitArgs post.dropLast 0 [] with
        | none => none
        | some parts =>
          some (String.mk outerCs, parts.map (fun p => trimStr (String.mk p)))
      else none
    | none => none

/-- Modelled from the spec: the Type Signature Analyzer (§4.1),
`resolve_nested_record(signature, registry) -> zero-or-more type_name`.
Shape 1: the whole trimmed signature is a registry `type_name`. Shape 2:
a container `Outer<Arg1, …>`; every top-level argument that is a registry
`type_name` is resolved, in argument order. Anything else resolves to
nothing; the analyzer has no failure mode. -/
def resolve_nested_record (signature : String) (R : Registry) : List String :=
  let s := trimStr signature
  if (lookupRecord R s).isSome then [s]
  else
    match parseContainer s with
    | none => []
    | some (_, args) => args.filter (fun a => (lookupRecord R a).isSome)

/-- The list of type names known to the registry. -/
def typeNames (R : Registry) : List String :=
  R.map RecordDefinition.type_name

/-- Number of registry type names not yet on the active path: the
termination measure of the builder's recursion. -/
def freeCount (R : Registry) (visiting : List String) : Nat :=
  ((typeNames R).filter (fun n => decide (n ∉ visiting))).length

theorem length_filter_le_of_imp {α : Type} {l : List α} {p q : α → Bool}
    (h : ∀ x, q x = true → p x = true) :
    (l.filter q).length ≤ (l.filter p).length := by
  induction l with
  | nil => simp
  | cons a t ih =>
    rw [List.filter_cons, List.filter_cons]
    by_cases hq : q a = true
    · rw [if_pos hq, if_pos (h a hq)]
      simpa using ih
    · rw [if_neg hq]
      by_cases hp : p a = true
      · rw [if_pos hp]
        exact Nat.le_succ_of_le ih
      · rw [if_neg hp]
        exact ih

theorem length_filter_lt_of_witness {α : Type} {l : List α} {p q : α → Bool}
    (h : ∀ x, q x = true → p x = true) {x : α} (hx : x ∈ l)
    (hpx : p x = true) (hqx : q x = false) :
    (l.filter q).length < (l.filter p).length := by
  induction l with
  | nil => cases hx
  | cons a t ih =>
    rw [List.filter_cons, List.filter_cons]
    rcases List.mem_cons.mp hx with rfl | hxt
    · rw [if_pos hpx, if_neg (by simp [hqx])]
      exact Nat.lt_succ_of_le (length_filter_le_of_imp h)
    · by_cases hq : q a = true
      · rw [if_pos hq, if_pos (h a hq)]
        simpa using ih hxt
      · rw [if_neg hq]
        by_cases hp : p a = true
        · rw [if_pos hp]
          exact Nat.lt_succ_of_lt (ih hxt)
        · rw [if_neg hp]
          exact ih hxt

theorem mem_typeNames_of_lookup {R : Registry} {t : String}
    {rd : RecordDefinition} (h : lookupRecord R t = some rd) :
    t ∈ typeNames R := by
  unfold lookupRecord at h
  have hm : rd ∈ R := List.mem_of_find?_eq_some h
  have hp := List.find?_some h
  have he : rd.type_name = t := by simpa using hp
  exact he ▸ List.mem_map_of_mem RecordDefinition.type_name hm

theorem freeCount_cons_lt {R : Registry} {V : List String} {T : String}
    (hmem : T ∈ typeNames R) (hnv : T ∉ V) :
    freeCount R (T :: V) < freeCount R V := by
  refine length_filter_lt_of_witness ?_ hmem ?_ ?_
  · intro x hx
    simp only [decide_eq_true_eq, List.mem_cons, not_or] at hx ⊢
    exact hx.2
  · simpa using hnv
  · simp

mutual

/-- Modelled from the spec: the field-expansion loop of the Documentation
Tree Builder (§4.2 step 2): for each field in declaration order, a
`FieldDoc` with `name`/`type_signature`/`doc_lines` copied verbatim and
`children` obtained by expanding the analyzer's resolved nested records
against the active path `visiting`. -/
def buildFields (R : Registry) (fields : List FieldDef)
    (visiting : List String) : List FieldDoc :=
  match fields with
  | [] => []
  | f :: rest =>
    FieldDoc.mk f.name f.type_signature f.doc_lines
        (buildChildren R (resolve_nested_record f.type_signature R) visiting)
      :: buildFields R rest visiting
termination_by (freeCount R visiting, 1, fields.length)
decreasing_by
  · exact Prod.Lex.right _ (Prod.Lex.left _ _ (by omega))
  · exact Prod.Lex.right _ (Prod.Lex.right _ (by simp only [List.length_cons]; omega))

/-- Modelled from the spec: expansion of the resolved nested record names of
one field (§4.2 steps 2c and 2d): a name already on the active path is not
re-expanded (its contribution is empty), otherwise the nested record's field
sequence is built with the name added to the path; the contributions are
concatenated in the order the analyzer reported the names. The `none`
branch is unreachable when the names come from the analyzer, since every
resolved name is a registry member. -/
def buildChildren (R : Registry) (names : List String)
    (visiting : List String) : List FieldDoc :=
  match names with
  | [] => []
  | T :: rest =>
    (if hT : T ∈ visiting then []
     else
       match hL : lookupRecord R T with
       | none => []
       | some rd => buildFields R rd.fields (T :: visiting))
      ++ buildChildren R rest visiting
termination_by (freeCount R visiting, 0, names.length)
decreasing_by
  · exact Prod.Lex.left _ _ (freeCount_cons_lt (mem_typeNames_of_lookup hL) hT)
  · exact Prod.Lex.right _ (Prod.Lex.right _ (by simp only [List.length_cons]; omega))

end

/-- Modelled from the spec: the error surfaced by the builder when the root
type name is absent from the registry (§7). -/
inductive BuildError where
  | UnknownType (name : String)
deriving DecidableEq

/-- Modelled from the spec: the Documentation Tree Builder entry (§4.2):
`build(root_type_name, registry, visiting)` looks the root up — failing
with `UnknownType` when absent, with no partial result — and otherwise
expands its fields in declaration order with the root on the active path
(so a field of the root's own type is a cycle, per the §8 cycle-termination
example). -/
def build (R : Registry) (root : String) (visiting : List String) :
    Except BuildError (List FieldDoc) :=
  match lookupRecord R root with
  | none => .error (.UnknownType root)
  | some rd => .ok (buildFields R rd.fields (root :: visiting))

/-- Modelled from the spec: the top-level extraction call with an initially
empty active path (the test's `get_struct_docs`). -/
def get_struct_docs (R : Registry) (root : String) :
    Except BuildError (List FieldDoc) :=
  build R root []

/-- Projection used to tell two documentation trees apart without a
decidable equality on the nested `FieldDoc` type: the per-node child
counts of a build result. -/
def childCounts (e : Except BuildError (List FieldDoc)) : List Nat :=
  match e with
  | .error _ => []
  | .ok ds => ds.map (fun d => d.children.length)

/-- Modelled from the spec: stripping of one raw doc-comment line by the
out-of-scope front-end, as pinned by the repository's test: the `///`
marker and exactly one following space are removed, everything else is
kept verbatim. -/
def strip_doc_line (s : String) : String :=
  match s.data with
  | '/' :: '/' :: '/' :: ' ' :: rest => String.mk rest
  | '/' :: '/' :: '/' :: rest => String.mk rest
  | _ => s

/-- Modelled from the spec: the doc lines of a field are the stripped raw
lines, one output string per source line, in source order. -/
def extract_doc_lines (raws : List String) : List String :=
  raws.map strip_doc_line

/-- The `Simple` record of the repository's test `test_simple_struct_with_map`,
as registry input: two fields `name` and `length` with their doc lines. -/
def simpleFields : List FieldDef :=
  [⟨"name", "String", ["Name for simple example"]⟩,
   ⟨"length", "u64",
     ["Length of something I'm not so sure what it's for",
      "This doc string is so long",
      "Here is some code blocks `println!(\"hello\");` you see?:"]⟩]

def simpleDef : RecordDefinition :=
  ⟨"Simple", simpleFields⟩

/-- The `SimpleMap` record of the test: one field `simple` whose rendered
signature is the spaced `"HashMap < String, Simple >"` the test asserts. -/
def simpleMapDef : RecordDefinition :=
  ⟨"SimpleMap",
   [⟨"simple", "HashMap < String, Simple >", ["Map for simple struct"]⟩]⟩

def testRegistry : Registry :=
  [simpleDef, simpleMapDef]

/-- The documentation expected by the test for `Simple`. -/
def expectedSimpleDocs : List FieldDoc :=
  [⟨"name", "String", ["Name for simple example"], []⟩,
   ⟨"length", "u64",
     ["Length of something I'm not so sure what it's for",
      "This doc string is so long",
      "Here is some code blocks `println!(\"hello\");` you see?:"], []⟩]

/-- The documentation expected by the test for `SimpleMap`. -/
def expectedSimpleMapDocs : List FieldDoc :=
  [⟨"simple", "HashMap < String, Simple >", ["Map for simple struct"],
    expectedSimpleDocs⟩]

/-- A registry with a cycle: `Root` holds a container of `Simple`, and
`Simple` holds a field of type `Root` pointing back. -/
def backRegistry : Registry :=
  [⟨"Root", [⟨"simple", "Mapping<String, Simple>", ["d"]⟩]⟩,
   ⟨"Simple", [⟨"back", "Root", []⟩]⟩]

/-- A registry in which `Simple` is known but declares no fields. -/
def noFieldsRegistry : Registry :=
  [⟨"Root", [⟨"s", "Simple", ["d"]⟩]⟩, ⟨"Simple", []⟩]

/-- A registry with a plain direct reference from `Holder` to the test's
`Simple` record. -/
def directRegistry : Registry :=
  [⟨"Holder", [⟨"s", "Simple", ["doc"]⟩]⟩, simpleDef]

/-- The spec's §8 cycle example: record `A` with a field of type `A`. -/
def cyclicRegistry : Registry :=
  [⟨"A", [⟨"a", "A", ["self"]⟩]⟩]

theorem buildFields_nil (R : Registry) (V : List String) :
    buildFields R [] V = [] := by
  rw [buildFields]

theorem buildFields_cons (R : Registry) (f : FieldDef) (rest : List FieldDef)
    (V : List String) :
    buildFields R (f :: rest) V =
      FieldDoc.mk f.name f.type_signature f.doc_lines
          (buildChildren R (resolve_nested_record f.type_signature R) V)
        :: buildFields R rest V := by
  rw [buildFields]

theorem buildChildren_nil (R : Registry) (V : List String) :
    buildChildren R [] V = [] := by
  rw [buildChildren]

theorem buildChildren_cons (R : Registry) (T : String) (rest : List String)
    (V : List String) :
    buildChildren R (T :: rest) V =
      (if T ∈ V then []
       else
         match lookupRecord R T with
         | none => []
         | some rd => buildFields R rd.fields (T :: V))
        ++ buildChildren R rest V := by
  rw [buildChildren]
  by_cases hT : T ∈ V
  · rw [dif_pos hT, if_pos hT]
  · rw [dif_neg hT, if_neg hT]
    cases hL : lookupRecord R T <;> rfl

theorem lookup_eq_some_name {R : Registry} {t : String} {rd : RecordDefinition}
    (h : lookupRecord R t = some rd) : rd ∈ R ∧ rd.type_name = t := by
  unfold lookupRecord at h
  refine ⟨List.mem_of_find?_eq_some h, ?_⟩
  have hp := List.find?_some h
  simpa using hp

theorem buildChildren_visited (R : Registry) (names V : List String)
    (h : ∀ T ∈ names, T ∈ V) : buildChildren R names V = [] := by
  induction names with
  | nil => exact buildChildren_nil R V
  | cons T rest ih =>
    rw [buildChildren_cons, if_pos (h T (List.mem_cons_self T rest))]
    simpa using ih (fun x hx => h x (List.mem_cons_of_mem T hx))

theorem buildFields_map_name (R : Registry) (fields : List FieldDef)
    (V : List String) :
    (buildFields R fields V).map FieldDoc.name = fields.map FieldDef.name := by
  induction fields with
  | nil => rw [buildFields_nil]; rfl
  | cons f rest ih =>
    rw [buildFields_cons]
    simp [FieldDoc.name, ih]

theorem splitFirstLt_mem {l : List Char} {pr : List Char × List Char}
    (h : splitFirstLt l = some pr) : '<' ∈ l := by
  induction l generalizing pr with
  | nil => simp [splitFirstLt] at h
  | cons c rest ih =>
    by_cases hc : c = '<'
    · subst hc
      exact List.mem_cons_self _ _
    · rw [splitFirstLt, if_neg hc] at h
      cases hr : splitFirstLt rest with
      | none => rw [hr] at h; simp at h
      | some pr' => exact List.mem_cons_of_mem _ (ih hr)

theorem parseContainer_mem_lt {s : String} {o : String} {args : List String}
    (h : parseContainer s = some (o, args)) : '<' ∈ s.data := by
  unfold parseContainer at h
  cases hs : splitFirstLt s.data with
  | none => rw [hs] at h; simp at h
  | some pr => exact splitFirstLt_mem hs

theorem buildFields_simple_eval (V : List String) :
    buildFields testRegistry simpleFields V = expectedSimpleDocs := by
  have h2 : resolve_nested_record "String" testRegistry = [] := by decide
  have h3 : resolve_nested_record "u64" testRegistry = [] := by decide
  simp [simpleFields, expectedSimpleDocs, buildFields_cons, buildFields_nil,
    buildChildren_nil, h2, h3]

theorem get_struct_docs_simplemap_eval :
    get_struct_docs testRegistry "SimpleMap" = .ok expectedSimpleMapDocs := by
  have h1 : resolve_nested_record "HashMap < String, Simple >" testRegistry =
      ["Simple"] := by decide
  have h4 : lookupRecord testRegistry "SimpleMap" = some simpleMapDef := by decide
  have h5 : lookupRecord testRegistry "Simple" = some simpleDef := by decide
  have h6 := buildFields_simple_eval ["Simple", "SimpleMap"]
  simp [get_struct_docs, build, h1, h4, h5, buildFields_cons, buildFields_nil,
    buildChildren_cons, buildChildren_nil, simpleMapDef, simpleDef, h6,
    expectedSimpleMapDocs]

theorem get_struct_docs_simple_eval :
    get_struct_docs testRegistry "Simple" = .ok expectedSimpleDocs := by
  have h5 : lookupRecord testRegistry "Simple" = some simpleDef := by decide
  have h6 := buildFields_simple_eval ["Simple"]
  simp [get_struct_docs, build, h5, simpleDef, h6]

theorem back_root_eval :
    get_struct_docs backRegistry "Root" =
      .ok [FieldDoc.mk "simple" "Mapping<String, Simple>" ["d"]
        [FieldDoc.mk "back" "Root" [] []]] := by
  have h1 : resolve_nested_record "Mapping<String, Simple>" backRegistry =
      ["Simple"] := by decide
  have h2 : resolve_nested_record "Root" backRegistry = ["Root"] := by decide
  have h3 : lookupRecord backRegistry "Root" =
      some ⟨"Root", [⟨"simple", "Mapping<String, Simple>", ["d"]⟩]⟩ := by decide
  have h4 : lookupRecord backRegistry "Simple" =
      some ⟨"Simple", [⟨"back", "Root", []⟩]⟩ := by decide
  simp [get_struct_docs, build, h1, h2, h3, h4, buildFields_cons,
    buildFields_nil, buildChildren_cons, buildChildren_nil]

theorem back_simple_eval :
    get_struct_docs backRegistry "Simple" =
      .ok [FieldDoc.mk "back" "Root" []
        [FieldDoc.mk "simple" "Mapping<String, Simple>" ["d"] []]] := by
  have h1 : resolve_nested_record "Mapping<String, Simple>" backRegistry =
      ["Simple"] := by decide
  have h2 : resolve_nested_record "Root" backRegistry = ["Root"] := by decide
  have h3 : lookupRecord backRegistry "Root" =
      some ⟨"Root", [⟨"simple", "Mapping<String, Simple>", ["d"]⟩]⟩ := by decide
  have h4 : lookupRecord backRegistry "Simple" =
      some ⟨"Simple", [⟨"back", "Root", []⟩]⟩ := by decide
  simp [get_struct_docs, build, h1, h2, h3, h4, buildFields_cons,
    buildFields_nil, buildChildren_cons, buildChildren_nil]

theorem nofields_root_eval :
    get_struct_docs noFieldsRegistry "Root" =
      .ok [FieldDoc.mk "s" "Simple" ["d"] []] := by
  have h1 : resolve_nested_record "Simple" noFieldsRegistry = ["Simple"] := by
    decide
  have h3 : lookupRecord noFieldsRegistry "Root" =
      some ⟨"Root", [⟨"s", "Simple", ["d"]⟩]⟩ := by decide
  have h4 : lookupRecord noFieldsRegistry "Simple" = some ⟨"Simple", []⟩ := by
    decide
  simp [get_struct_docs, build, h1, h3, h4, buildFields_cons, buildFields_nil,
    buildChildren_cons, buildChildren_nil]

theorem cyclic_eval :
    get_struct_docs cyclicRegistry "A" = .ok [FieldDoc.mk "a" "A" ["self"] []] := by
  have h1 : resolve_nested_record "A" cyclicRegistry = ["A"] := by decide
  have h3 : lookupRecord cyclicRegistry "A" =
      some ⟨"A", [⟨"a", "A", ["self"]⟩]⟩ := by decide
  simp [get_struct_docs, build, h1, h3, buildFields_cons, buildFields_nil,
    buildChildren_cons, buildChildren_nil]

/-- C1, counterexample to the claim as stated: in the cyclic registry
`backRegistry` (where `Simple` reaches back to the record holding the
container field), the container field's `children` is the truncated
expansion of `Simple` — its `back` node has no children — whereas
`build("Simple", R)` from scratch re-expands `Root` inside `back`. The two
trees differ, so `children` does not equal `build("Simple", R)` for every
registry containing `Simple`. -/
theorem claim_C1_counterexample :
    get_struct_docs backRegistry "Root" =
      .ok [FieldDoc.mk "simple" "Mapping<String, Simple>" ["d"]
        [FieldDoc.mk "back" "Root" [] []]] ∧
    get_struct_docs backRegistry "Simple" ≠
      .ok [FieldDoc.mk "back" "Root" [] []] := by
  refine ⟨back_root_eval, ?_⟩
  intro h
  rw [back_simple_eval] at h
  have h2 := congrArg childCounts h
  simp [childCounts, FieldDoc.children] at h2

/-- Claim C1 (corrected): container match. If a field's signature fails the
direct match but parses as a container whose registry-matching top-level
arguments are exactly `[T]`, with `T` bound to record `rd` and not on the
active path, then the produced `FieldDoc` preserves the field's name,
type signature and doc lines verbatim and its `children` equals the payload
of `build T` carried out with the field's active visiting set — which is
what `build("Simple", R)` yields in the worked example, where no cycle
reaches back into the active path. -/
theorem claim_C1_container_match (R : Registry) (f : FieldDef)
    (rest : List FieldDef) (V : List String) (T o : String)
    (args : List String) (rd : RecordDefinition)
    (hdirect : lookupRecord R (trimStr f.type_signature) = none)
    (hparse : parseContainer (trimStr f.type_signature) = some (o, args))
    (hargs : args.filter (fun a => (lookupRecord R a).isSome) = [T])
    (hlook : lookupRecord R T = some rd)
    (hnv : T ∉ V) :
    buildFields R (f :: rest) V =
      FieldDoc.mk f.name f.type_signature f.doc_lines
          (buildFields R rd.fields (T :: V))
        :: buildFields R rest V ∧
    build R T V = .ok (buildFields R rd.fields (T :: V)) := by
  have hres : resolve_nested_record f.type_signature R = [T] := by
    simp [resolve_nested_record, hdirect, hparse, hargs]
  constructor
  · rw [buildFields_cons, hres, buildChildren_cons, if_neg hnv, hlook]
    simp [buildChildren_nil]
  · simp [build, hlook]

/-- Witness for C1's amended theorem at the worked example pinned by the
repository's test. -/
theorem claim_C1_witness :
    buildFields testRegistry
        [⟨"simple", "HashMap < String, Simple >", ["Map for simple struct"]⟩]
        ["SimpleMap"] =
      FieldDoc.mk "simple" "HashMap < String, Simple >"
          ["Map for simple struct"]
          (buildFields testRegistry simpleFields ["Simple", "SimpleMap"])
        :: buildFields testRegistry [] ["SimpleMap"] ∧
    build testRegistry "Simple" ["SimpleMap"] =
      .ok (buildFields testRegistry simpleFields ["Simple", "SimpleMap"]) ∧
    buildFields testRegistry simpleFields ["Simple", "SimpleMap"] =
      expectedSimpleDocs ∧
    get_struct_docs testRegistry "SimpleMap" = .ok expectedSimpleMapDocs := by
  have h := claim_C1_container_match testRegistry
      ⟨"simple", "HashMap < String, Simple >", ["Map for simple struct"]⟩ []
      ["SimpleMap"] "Simple" "HashMap " ["String", "Simple"] simpleDef
      (by decide) (by decide) (by decide) (by decide) (by decide)
  exact ⟨h.1, h.2, buildFields_simple_eval _, get_struct_docs_simplemap_eval⟩

/-- Claim C2 (confirmed): a resolved nested type name already present in the
active recursion's visiting set is not re-expanded: the `FieldDoc` for such
a field is still emitted with its own name, type signature and doc lines,
and its `children` is left empty. Termination on self-referential
registries holds by construction — `buildFields` is accepted as a total,
well-founded recursion — and the witness evaluates the builder on the
spec's self-referential registry `A { a : A }`. -/
theorem claim_C2_cycle_truncation (R : Registry) (f : FieldDef)
    (rest : List FieldDef) (V : List String)
    (h : ∀ T ∈ resolve_nested_record f.type_signature R, T ∈ V) :
    buildFields R (f :: rest) V =
      FieldDoc.mk f.name f.type_signature f.doc_lines []
        :: buildFields R rest V := by
  rw [buildFields_cons, buildChildren_visited R _ V h]

/-- Witness for C2 at the self-referential registry `A { a : A }`. -/
theorem claim_C2_witness :
    (∀ T ∈ resolve_nested_record "A" cyclicRegistry, T ∈ ["A"]) ∧
    buildFields cyclicRegistry [⟨"a", "A", ["self"]⟩] ["A"] =
      [FieldDoc.mk "a" "A" ["self"] []] ∧
    get_struct_docs cyclicRegistry "A" =
      .ok [FieldDoc.mk "a" "A" ["self"] []] := by
  have h2 := claim_C2_cycle_truncation cyclicRegistry ⟨"a", "A", ["self"]⟩ []
      ["A"] (by decide)
  rw [buildFields_nil] at h2
  exact ⟨by decide, h2, cyclic_eval⟩

/-- Claim C3 (confirmed): `build` fails with `UnknownType` exactly when the
root is absent from the registry, returning no partial result, and returns
the record's `FieldDoc` sequence without error when the root is present. -/
theorem claim_C3_unknown_type (R : Registry) (T : String) (V : List String) :
    (lookupRecord R T = none → build R T V = .error (.UnknownType T)) ∧
    (∀ rd, lookupRecord R T = some rd →
      build R T V = .ok (buildFields R rd.fields (T :: V))) := by
  constructor
  · intro h
    simp [build, h]
  · intro rd h
    simp [build, h]

/-- Witness for C3: an unknown root fails with `UnknownType`, and the known
root `Simple` of the test registry succeeds. -/
theorem claim_C3_witness :
    build testRegistry "DoesNotExist" [] =
      .error (.UnknownType "DoesNotExist") ∧
    build testRegistry "Simple" [] =
      .ok (buildFields testRegistry simpleFields ["Simple"]) :=
  ⟨(claim_C3_unknown_type testRegistry "DoesNotExist" []).1 (by decide),
   (claim_C3_unknown_type testRegistry "Simple" []).2 simpleDef (by decide)⟩

/-- Claim C4 (confirmed): the builder is a pure function of the registry and
the root type; two calls with identical inputs are the same value, so they
yield identical trees. -/
theorem claim_C4_determinism (R : Registry) (T : String) (V : List String) :
    build R T V = build R T V ∧ get_struct_docs R T = get_struct_docs R T :=
  ⟨rfl, rfl⟩

/-- Claim C5 (confirmed): at every level of the tree, the names of the
`FieldDoc` sequence produced for a record's fields equal the declared field
names in declaration order — element for element, so nothing is sorted or
deduplicated. -/
theorem claim_C5_order_preservation (R : Registry) (fields : List FieldDef)
    (V : List String) :
    (buildFields R fields V).map FieldDoc.name = fields.map FieldDef.name :=
  buildFields_map_name R fields V

/-- C6, counterexample to the claim as stated: in a registry where `Simple`
is present but declares no fields, a field of signature exactly `"Simple"`
is resolved by the analyzer (it returns `["Simple"]`) yet the produced
`FieldDoc` has empty `children`, contradicting the claimed non-emptiness. -/
theorem claim_C6_counterexample :
    resolve_nested_record "Simple" noFieldsRegistry = ["Simple"] ∧
    get_struct_docs noFieldsRegistry "Root" =
      .ok [FieldDoc.mk "s" "Simple" ["d"] []] :=
  ⟨by decide, nofields_root_eval⟩

/-- Claim C6 (corrected): direct match. A field whose trimmed signature
exactly equals a registry type `T` bound to record `rd`, with `T` not on
the active path, resolves to exactly `[T]`, and the produced `FieldDoc`'s
`children` equals the payload of `build T` under the active visiting set;
the children are non-empty provided `rd` declares at least one field (the
original claim fails when `Simple` has no fields). -/
theorem claim_C6_direct_match (R : Registry) (T : String) (f : FieldDef)
    (rest : List FieldDef) (V : List String) (rd : RecordDefinition)
    (hsig : trimStr f.type_signature = T)
    (hlook : lookupRecord R T = some rd)
    (hnv : T ∉ V) :
    resolve_nested_record f.type_signature R = [T] ∧
    buildFields R (f :: rest) V =
      FieldDoc.mk f.name f.type_signature f.doc_lines
          (buildFields R rd.fields (T :: V))
        :: buildFields R rest V ∧
    build R T V = .ok (buildFields R rd.fields (T :: V)) ∧
    (rd.fields ≠ [] → buildFields R rd.fields (T :: V) ≠ []) := by
  have hres : resolve_nested_record f.type_signature R = [T] := by
    simp [resolve_nested_record, hsig, hlook]
  refine ⟨hres, ?_, ?_, ?_⟩
  · rw [buildFields_cons, hres, buildChildren_cons, if_neg hnv, hlook]
    simp [buildChildren_nil]
  · simp [build, hlook]
  · intro hne
    cases hfs : rd.fields with
    | nil => exact absurd hfs hne
    | cons g gs =>
      rw [buildFields_cons]
      simp

/-- Witness for C6's amended theorem at the direct-reference registry. -/
theorem claim_C6_witness :
    resolve_nested_record "Simple" directRegistry = ["Simple"] ∧
    buildFields directRegistry [⟨"s", "Simple", ["doc"]⟩] ["Holder"] =
      FieldDoc.mk "s" "Simple" ["doc"]
          (buildFields directRegistry simpleFields ["Simple", "Holder"])
        :: buildFields directRegistry [] ["Holder"] ∧
    build directRegistry "Simple" ["Holder"] =
      .ok (buildFields directRegistry simpleFields ["Simple", "Holder"]) ∧
    buildFields directRegistry simpleFields ["Simple", "Holder"] ≠ [] := by
  have h := claim_C6_direct_match directRegistry "Simple"
      ⟨"s", "Simple", ["doc"]⟩ [] ["Holder"] simpleDef
      (by decide) (by decide) (by decide)
  exact ⟨h.1, h.2.1, h.2.2.1, h.2.2.2 (by decide)⟩

/-- Claim C7 (confirmed): a signature that neither directly matches a
registry type nor is a container with a registry-type top-level argument
resolves to zero nested records — the analyzer has no failure mode — and
the produced `FieldDoc` has empty `children`. Malformed signatures fall
under the same hypotheses, since the container parse rejects them. -/
theorem claim_C7_non_match (R : Registry) (f : FieldDef)
    (rest : List FieldDef) (V : List String)
    (hdirect : lookupRecord R (trimStr f.type_signature) = none)
    (hargs : ∀ o args,
      parseContainer (trimStr f.type_signature) = some (o, args) →
      ∀ a ∈ args, lookupRecord R a = none) :
    resolve_nested_record f.type_signature R = [] ∧
    buildFields R (f :: rest) V =
      FieldDoc.mk f.name f.type_signature f.doc_lines []
        :: buildFields R rest V := by
  have hres : resolve_nested_record f.type_signature R = [] := by
    simp only [resolve_nested_record, hdirect, Option.isSome_none,
      Bool.false_eq_true, if_false]
    cases hp : parseContainer (trimStr f.type_signature) with
    | none => simp
    | some pr =>
      obtain ⟨o, args⟩ := pr
      simp only []
      rw [List.filter_eq_nil_iff]
      intro a ha
      simp [hargs o args hp a ha]
  refine ⟨hres, ?_⟩
  rw [buildFields_cons, hres, buildChildren_nil]

/-- Witness for C7 at a container of primitives, a plain primitive and a
malformed signature with an unbalanced bracket. -/
theorem claim_C7_witness :
    resolve_nested_record "Mapping<String, u64>" testRegistry = [] ∧
    buildFields testRegistry [⟨"x", "Mapping<String, u64>", ["d"]⟩] [] =
      [FieldDoc.mk "x" "Mapping<String, u64>" ["d"] []] ∧
    resolve_nested_record "u64" testRegistry = [] ∧
    resolve_nested_record "Mapping<String, u64" testRegistry = [] := by
  have h := claim_C7_non_match testRegistry
      ⟨"x", "Mapping<String, u64>", ["d"]⟩ [] []
      (by decide)
      (by
        intro o args hp
        have hpc : parseContainer (trimStr "Mapping<String, u64>") =
            some ("Mapping", ["String", "u64"]) := by decide
        rw [hpc] at hp
        cases hp
        decide)
  have h2 := h.2
  rw [buildFields_nil] at h2
  exact ⟨h.1, h2, by decide, by decide⟩

/-- Claim C8 (confirmed): only the top-level comma-separated arguments are
inspected. Assuming registry type names contain no `<` (true of any
canonical record name), the analyzer's result for a container signature is
exactly the registry filter of the top-level argument list, and an argument
that is itself parameterized (contains `<`) never contributes a resolved
record, even when a registry name occurs inside it. -/
theorem claim_C8_one_level (R : Registry) (sig o : String)
    (args : List String)
    (hnames : ∀ rd ∈ R, '<' ∉ rd.type_name.data)
    (hparse : parseContainer (trimStr sig) = some (o, args)) :
    resolve_nested_record sig R =
      args.filter (fun a => (lookupRecord R a).isSome) ∧
    ∀ a ∈ args, '<' ∈ a.data → a ∉ resolve_nested_record sig R := by
  have hdirect : lookupRecord R (trimStr sig) = none := by
    cases hL : lookupRecord R (trimStr sig) with
    | none => rfl
    | some rd =>
      obtain ⟨hm, hn⟩ := lookup_eq_some_name hL
      have hlt : '<' ∈ (trimStr sig).data := parseContainer_mem_lt hparse
      have hin : '<' ∈ rd.type_name.data := by rw [hn]; exact hlt
      exact absurd hin (hnames rd hm)
  have hres : resolve_nested_record sig R =
      args.filter (fun a => (lookupRecord R a).isSome) := by
    simp [resolve_nested_record, hdirect, hparse]
  refine ⟨hres, ?_⟩
  intro a ha hlt hmem
  rw [hres] at hmem
  have hsome : (lookupRecord R a).isSome = true := (List.mem_filter.mp hmem).2
  cases hL : lookupRecord R a with
  | none => rw [hL] at hsome; simp at hsome
  | some rd =>
    obtain ⟨hm, hn⟩ := lookup_eq_some_name hL
    have hin : '<' ∈ rd.type_name.data := by rw [hn]; exact hlt
    exact absurd hin (hnames rd hm)

/-- Witness for C8: a nested parameterized argument wrapping a known record
name resolves nothing. -/
theorem claim_C8_witness :
    resolve_nested_record "Mapping<String, Vec<Simple>>" [simpleDef] =
      List.filter (fun a => (lookupRecord [simpleDef] a).isSome)
        ["String", "Vec<Simple>"] ∧
    "Vec<Simple>" ∉
      resolve_nested_record "Mapping<String, Vec<Simple>>" [simpleDef] ∧
    resolve_nested_record "Mapping<String, Vec<Simple>>" [simpleDef] = [] := by
  have h := claim_C8_one_level [simpleDef] "Mapping<String, Vec<Simple>>"
      "Mapping" ["String", "Vec<Simple>"] (by decide) (by decide)
  exact ⟨h.1, h.2 "Vec<Simple>" (by decide) (by decide), by decide⟩

/-- Claim C9 (confirmed): the canonical rendering pinned by the repository's
test spaces the tokens of a parameterized type — `"HashMap < String, Simple >"`
— and the analyzer resolves the nested record `Simple` from exactly that
spaced rendering; the produced node preserves the spaced signature verbatim
and carries the two children `name` and `length`. -/
theorem claim_C9_spaced_rendering :
    resolve_nested_record "HashMap < String, Simple >" testRegistry =
      ["Simple"] ∧
    get_struct_docs testRegistry "SimpleMap" = .ok expectedSimpleMapDocs ∧
    expectedSimpleMapDocs.map FieldDoc.type_signature =
      ["HashMap < String, Simple >"] ∧
    expectedSimpleMapDocs.map (fun d => d.children.map FieldDoc.name) =
      [["name", "length"]] :=
  ⟨by decide, get_struct_docs_simplemap_eval, rfl, rfl⟩

/-- Claim C10 (confirmed): every raw doc-comment line becomes exactly one
string, in source order, with the `///` marker and exactly one leading
space stripped; all remaining content — punctuation, inline code, further
leading spaces — is preserved verbatim. -/
theorem claim_C10_doc_lines :
    (∀ rest : String, strip_doc_line ("/// " ++ rest) = rest) ∧
    extract_doc_lines
        ["/// Length of something I'm not so sure what it's for",
         "/// This doc string is so long",
         "/// Here is some code blocks `println!(\"hello\");` you see?:"] =
      ["Length of something I'm not so sure what it's for",
       "This doc string is so long",
       "Here is some code blocks `println!(\"hello\");` you see?:"] ∧
    extract_doc_lines ["/// Name for simple example"] =
      ["Name for simple example"] ∧
    strip_doc_line "///  two spaces" = " two spaces" := by
  refine ⟨?_, by decide, by decide, by decide⟩
  intro rest
  obtain ⟨cs⟩ := rest
  rfl

end GetDocs
